import Mathlib

/-!
# Shallow embedding of RelStorage's blob helper (`src/relstorage/blobhelper.py`)

This file embeds, in Lean 4, the data model and operations of the blob
management module of RelStorage: the transaction staging area
(`_txn_blobs`, a Python dict mapping oid to a temporary file name), the
three blob-helper variants (`NoBlobHelper`, `SharedBlobHelper`,
`CacheBlobHelper`), the size-limited cache budget controller
(`CacheBlobHelper.SizeLimited`), the blob-cache eviction pass
(`_BlobCacheSizeChecker`) and the cache directory layout
(`_BlobCacheLayout`).

Modelling conventions:
* The filesystem is abstracted by boolean predicates (`String → Bool`)
  describing which paths exist, and by explicit failure predicates for the
  operations that can raise `OSError` (`rename_or_copy_blob`,
  `remove_committed`) or `zc.lockfile.LockError` (`_lock_blob`).
* Python exceptions become explicit error values (`Except` / `Option` of an
  error type); a raised exception that propagates out of a method is an
  `error` / `some err` result, paired with the state the object is left in.
* Machine integers (oids, tids, byte sizes) are `Nat`; oids and tids are
  64-bit in the source (`u64` / `p64`), so theorems that need the bound
  state `< 2 ^ 64` explicitly.  The one floating-point computation
  (`blob_cache_max_size * blob_cache_size_check / 100.0`) is modelled with
  exact rational arithmetic over `ℚ`.
* The Python dict `_txn_blobs` is modelled as an association list
  (`List (Nat × String)`) with first-match lookup and in-place update,
  which preserves Python's insertion-order iteration semantics.
-/

set_option autoImplicit false

namespace RelStorage

/-- Errors that the blob helper can raise, one constructor per Python
exception class used in `blobhelper.py`. -/
inductive BlobError where
  /-- `ZODB.POSException.Unsupported` -/
  | unsupported
  /-- `ZODB.POSException.POSKeyError` -/
  | posKeyError
  /-- `ZODB.POSException.StorageTransactionError` -/
  | storageTransactionError
  /-- `OSError` from a filesystem operation (rename, remove, stat) -/
  | osError
  /-- `zc.lockfile.LockError` -/
  | lockError
  /-- `AssertionError` from a failed `assert` statement -/
  | assertionError
deriving Repr, DecidableEq

/-! ## The transaction staging area (`_txn_blobs`)

`_txn_blobs` is `None` outside a transaction and a dict `{oid -> filename}`
inside one.  We model the dict as an insertion-ordered association list. -/

/-- The dict type `{oid -> filename}`. -/
abbrev TxnBlobs := List (Nat × String)

/-- `self._txn_blobs.get(oid)`: first-match lookup in the dict. -/
def txnGet (m : TxnBlobs) (oid : Nat) : Option String :=
  match m with
  | [] => none
  | (k, v) :: rest => if k = oid then some v else txnGet rest oid

/-- `self._txn_blobs[oid] = filename`: replace the value of an existing key
in place, or append a new binding, preserving insertion order. -/
def txnSet (m : TxnBlobs) (oid : Nat) (filename : String) : TxnBlobs :=
  match m with
  | [] => [(oid, filename)]
  | (k, v) :: rest =>
      if k = oid then (k, filename) :: rest
      else (k, v) :: txnSet rest oid filename

/-- `_AbstractBlobHelper._add_blob_to_transaction(oid, filename)`
(blobhelper.py lines 256-260): if an earlier entry for `oid` exists with a
different filename, the earlier temp file is removed
(`ZODB.blob.remove_committed(old_filename)`), then the dict entry is
replaced.  Returns the new dict together with the list of temp files that
were removed. -/
def add_blob_to_transaction (m : TxnBlobs) (oid : Nat) (filename : String) :
    TxnBlobs × List String :=
  let old_filename := txnGet m oid
  match old_filename with
  | some old =>
      if old ≠ filename then (txnSet m oid filename, [old])
      else (txnSet m oid filename, [])
  | none => (txnSet m oid filename, [])

/-- The per-transaction mutable state of an `_AbstractBlobHelper` instance:
`_txn_blobs` is `none` outside a transaction and `some dict` inside one. -/
structure HelperState where
  txn_blobs : Option TxnBlobs
deriving Repr, DecidableEq

/-- `_AbstractBlobHelper.clear_temp()`: `self._txn_blobs = None`. -/
def clear_temp (_st : HelperState) : HelperState :=
  { txn_blobs := none }

/-- `_AbstractBlobHelper.begin()`: raises `StorageTransactionError` if a
staging area is already open, else installs an empty dict. -/
def beginTxn (st : HelperState) : Except BlobError HelperState :=
  match st.txn_blobs with
  | some _ => .error .storageTransactionError
  | none => .ok { txn_blobs := some [] }

/-! ## `_AbstractBlobHelper._move_blobs_into_place(tid)` (lines 262-289)

The loop renames each staged temp file to its final cache path.  Per entry
the code runs `os.stat(sourcename)`, accumulates `total_size`, computes
`targetname = fshelper.getBlobFilename(oid, tid)` and, when
`sourcename != targetname`, takes the per-blob lock and calls
`ZODB.blob.rename_or_copy_blob(sourcename, targetname)` before updating
`self._txn_blobs[oid] = targetname`.  Lock acquisition and the rename can
both raise; either failure propagates out of the loop, leaving the entries
already processed updated and the rest (including the failing one)
untouched.  We model the external collaborators by three parameters:
`getBlobFilename` (the `ZODB.blob.FilesystemHelper` path function),
`sizeOf` (`os.stat(...).st_size`) and `moveFails` (true when the
lock-and-rename step for that source/target pair raises). -/

/-- One pass of the `for oid, sourcename in self._txn_blobs.items()` loop.
Returns the resulting dict entries, the accumulated `total_size`, and
`some err` when the move of some entry raised (entries after the failure
are returned unchanged, as in the source). -/
def moveBlobsLoop (getBlobFilename : Nat → Nat → String) (sizeOf : String → Nat)
    (moveFails : String → String → Bool) (tid : Nat) :
    TxnBlobs → TxnBlobs × Nat × Option BlobError
  | [] => ([], 0, none)
  | (oid, sourcename) :: rest =>
      let targetname := getBlobFilename oid tid
      if sourcename ≠ targetname then
        if moveFails sourcename targetname then
          ((oid, sourcename) :: rest, sizeOf sourcename, some .osError)
        else
          let (m, total, err) := moveBlobsLoop getBlobFilename sizeOf moveFails tid rest
          ((oid, targetname) :: m, sizeOf sourcename + total, err)
      else
        let (m, total, err) := moveBlobsLoop getBlobFilename sizeOf moveFails tid rest
        ((oid, sourcename) :: m, sizeOf sourcename + total, err)

/-- `_AbstractBlobHelper._move_blobs_into_place(tid)`: returns 0 at once
when the staging area is `None` or empty; raises
`StorageTransactionError` when `tid` is falsy; otherwise runs the rename
loop.  The result is the helper state the object is left in, the
`total_size` return value, and the propagated exception if any. -/
def move_blobs_into_place (getBlobFilename : Nat → Nat → String)
    (sizeOf : String → Nat) (moveFails : String → String → Bool)
    (st : HelperState) (tid : Option Nat) :
    HelperState × Nat × Option BlobError :=
  match st.txn_blobs with
  | none => (st, 0, none)
  | some [] => (st, 0, none)
  | some blobs =>
      match tid with
      | none => (st, 0, some .storageTransactionError)
      | some t =>
          let (m, total, err) := moveBlobsLoop getBlobFilename sizeOf moveFails t blobs
          ({ txn_blobs := some m }, total, err)

/-- `CacheBlobHelper.finish(tid)` (lines 681-684): runs
`_move_blobs_into_place`, reports the moved bytes to the cache checker,
then calls `super().finish(tid)`, i.e. `self.clear_temp()`
(lines 296-300).  There is no `try`/`finally`: an exception raised while
moving blobs propagates immediately, and `clear_temp` never runs.
Returns the resulting state, the byte count reported to
`cache_checker.loaded`, and the propagated exception if any. -/
def cacheFinish (getBlobFilename : Nat → Nat → String) (sizeOf : String → Nat)
    (moveFails : String → String → Bool) (st : HelperState) (tid : Option Nat) :
    HelperState × Option Nat × Option BlobError :=
  let (st', total, err) := move_blobs_into_place getBlobFilename sizeOf moveFails st tid
  match err with
  | some e => (st', none, some e)
  | none => (clear_temp st', some total, none)

/-! ## `_AbstractBlobHelper.abort()` (lines 307-317)

```
def abort(self):
    try:
        if not self._txn_blobs:
            return
        for _oid, filename in iteritems(self._txn_blobs):
            if os.path.exists(filename):
                ZODB.blob.remove_committed(filename)
                self._abort_filename(filename)
    finally:
        self.clear_temp()
```

`remove_committed` can raise `OSError`; there is no `except` clause, so the
exception propagates to the caller — the `finally` only guarantees that
`clear_temp()` runs.  We model the filesystem by `fsExists` and removal
failure by `removeFails`.  (`_abort_filename` is a no-op in the base class
and in `CacheBlobHelper`.) -/

/-- The `for` loop of `abort`: removes each staged file that exists, in
dict order, stopping with an error when a removal raises.  Returns the
files removed and the propagated exception if any. -/
def abortLoop (fsExists removeFails : String → Bool) :
    TxnBlobs → List String × Option BlobError
  | [] => ([], none)
  | (_oid, filename) :: rest =>
      if fsExists filename then
        if removeFails filename then ([], some .osError)
        else
          let (removed, err) := abortLoop fsExists removeFails rest
          (filename :: removed, err)
      else
        abortLoop fsExists removeFails rest

/-- `_AbstractBlobHelper.abort()`: returns the resulting state, the staged
files removed from disk, and the exception that propagated (if any).  The
`finally` clause means the staging area is cleared in every case. -/
def abortTxn (fsExists removeFails : String → Bool) (st : HelperState) :
    HelperState × List String × Option BlobError :=
  match st.txn_blobs with
  | none => ({ txn_blobs := none }, [], none)
  | some [] => ({ txn_blobs := none }, [], none)
  | some blobs =>
      let (removed, err) := abortLoop fsExists removeFails blobs
      ({ txn_blobs := none }, removed, err)

/-! ## `CacheBlobHelper._loadBlobInternal` / `_loadBlobLocked` (lines 595-633)

`_loadBlobInternal` first runs `_cachedLoadBlobInternal`, which returns the
blob filename when `os.path.exists(blob_filename)`.  On a miss it creates
the shard directory, takes the per-blob lock (`blob_lock` is `None` when
called from `loadBlob`) and calls `_loadBlobLocked`, which re-checks
`os.path.exists`, and only if the file is still missing calls
`self.download_blob(...)` (the external fetch collaborator); if after the
download the file still does not exist it raises `POSKeyError`.

Concurrency is modelled by three snapshots of the one fact the code
tests: `existsAtFirstCheck` (the `os.path.exists` in
`_cachedLoadBlobInternal`), `existsAtDoubleCheck` (the re-check under the
lock, which a concurrent downloader may have changed) and
`downloadCreates` (whether the file exists after `download_blob`).
`_accessed` only updates the file's atime and returns the name, so it is
modelled as the identity. -/

/-- Outcome of a cache-variant blob load: the Python return value or
exception, plus instrumentation recording whether the per-blob lock was
taken and whether the download collaborator was invoked. -/
structure LoadOutcome where
  result : Except BlobError String
  lockTaken : Bool
  downloadInvoked : Bool
deriving Repr

/-- `CacheBlobHelper._loadBlobLocked(cursor, oid, serial, blob_filename)`:
double-check under the lock, then download, then check again or raise
`POSKeyError`.  Returns the result and whether the download ran. -/
def loadBlobLocked (existsAtDoubleCheck downloadCreates : Bool)
    (blob_filename : String) : Except BlobError String × Bool :=
  if existsAtDoubleCheck then (.ok blob_filename, false)
  else if downloadCreates then (.ok blob_filename, true)
  else (.error .posKeyError, true)

/-- `CacheBlobHelper._loadBlobInternal(cursor, oid, serial, blob_lock=None)`
in the `blob_lock is None` case used by `loadBlob` (line 165-166): on a
cache hit return immediately; on a miss take the lock, run
`_loadBlobLocked`, and release the lock. -/
def loadBlobInternal (existsAtFirstCheck existsAtDoubleCheck downloadCreates : Bool)
    (blob_filename : String) : LoadOutcome :=
  if existsAtFirstCheck then
    { result := .ok blob_filename, lockTaken := false, downloadInvoked := false }
  else
    let (r, dl) := loadBlobLocked existsAtDoubleCheck downloadCreates blob_filename
    { result := r, lockTaken := true, downloadInvoked := dl }

/-! ## `NoBlobHelper` (blobhelper.py lines 51-98)

`NoBlobHelper` has `__slots__ = ()`: it carries no state at all, so its
operations are pure values.  The blob-data operations raise `Unsupported`;
the transaction-lifecycle operations are no-ops returning `None`. -/

/-- `NoBlobHelper.loadBlob`: always raises `Unsupported`. -/
def noBlob_loadBlob (_cursor _oid _serial : Nat) : Except BlobError String :=
  .error .unsupported

/-- `NoBlobHelper.openCommittedBlobFile`: always raises `Unsupported`. -/
def noBlob_openCommittedBlobFile (_cursor _oid _serial : Nat)
    (_blob : Option Nat) : Except BlobError String :=
  .error .unsupported

/-- `NoBlobHelper.temporaryDirectory`: always raises `Unsupported`. -/
def noBlob_temporaryDirectory : Except BlobError String :=
  .error .unsupported

/-- `NoBlobHelper.storeBlob`: always raises `Unsupported`. -/
def noBlob_storeBlob (_cursor _oid _serial : Nat) (_data _blobfilename : String) :
    Except BlobError Unit :=
  .error .unsupported

/-- `NoBlobHelper.restoreBlob`: always raises `Unsupported`. -/
def noBlob_restoreBlob (_cursor _oid _serial : Nat) (_blobfilename : String) :
    Except BlobError Unit :=
  .error .unsupported

/-- `NoBlobHelper.vote` / `NoBlobHelper.finish`
(`vote = finish = lambda self, _tid=None: None`): no-op, returns `None`. -/
def noBlob_voteFinish (_tid : Option Nat) : Except BlobError Unit :=
  .ok ()

/-- `NoBlobHelper.begin` / `abort` / `clear_temp` / `close`
(`begin = abort = clear_temp = close = lambda self: None`): no-op. -/
def noBlob_lifecycle : Except BlobError Unit :=
  .ok ()

/-- `NoBlobHelper.after_pack(oid_int, tid_int)`: empty method body, no-op. -/
def noBlob_after_pack (_oid_int _tid_int : Nat) : Except BlobError Unit :=
  .ok ()

/-- `NoBlobHelper.copy_undone(copied, tid)`: empty method body, no-op. -/
def noBlob_copy_undone (_copied : List (Nat × Nat)) (_tid : Nat) :
    Except BlobError Unit :=
  .ok ()

/-! ## `_BlobCacheSizeChecker.__shrink_blob_dir` (lines 858-884)

```
while size > target_size and files_by_atime:
    for file_path in files_by_atime.pop(files_by_atime.minKey()):
        try:
            lock = _lock_blob(file_path, 0)
        except zc.lockfile.LockError:
            continue  # In use, skip
        try:
            fsize = os.stat(file_path).st_size
            try:
                ZODB.blob.remove_committed(file_path)
            except OSError:
                pass # probably open on windows
            else:
                size -= fsize
        finally:
            lock.close()
        if size <= target_size:
            break
```

`files_by_atime` is a `BTrees.OOBTree.BTree` mapping each last-access time
to the list of blob files with that atime (in discovery order).  A BTree
is a sorted map, so we model it as an association list sorted ascending by
key; `files_by_atime.pop(files_by_atime.minKey())` is then exactly
"remove and return the head group".  `_lock_blob(file_path, 0)` is a
non-blocking lock attempt (zero retries), modelled by the predicate
`locked`; `remove_committed` raising `OSError` is modelled by
`removeFails`.  Sizes are integers (`size -= fsize` on Python ints). -/

/-- A blob file in the eviction snapshot: its path and its
`os.stat(...).st_size`. -/
structure SFile where
  path : String
  fsize : Int
deriving Repr, DecidableEq

/-- Total byte size of a list of snapshot files. -/
def sumSize (l : List SFile) : Int :=
  (l.map SFile.fsize).sum

/-- The inner `for` loop of `__shrink_blob_dir` over one atime group:
returns the running size after the group and the files actually deleted,
in order.  A locked file is skipped (`continue`); a failed removal leaves
the size unchanged; after each non-skipped file the loop breaks as soon as
`size <= target_size`. -/
def shrinkGroup (locked removeFails : String → Bool) (target : Int) :
    Int → List SFile → Int × List SFile
  | size, [] => (size, [])
  | size, f :: rest =>
      if locked f.path then
        shrinkGroup locked removeFails target size rest
      else if removeFails f.path then
        if size ≤ target then (size, [])
        else shrinkGroup locked removeFails target size rest
      else
        let size' := size - f.fsize
        if size' ≤ target then (size', [f])
        else
          let sd := shrinkGroup locked removeFails target size' rest
          (sd.1, f :: sd.2)

/-- The outer `while` loop of `__shrink_blob_dir`: pops the
minimum-atime group while `size > target_size` and groups remain.
`groups` is the BTree as a sorted-ascending association list
`atime -> files`.  Returns the final running size and the deleted files,
each tagged with the atime of its group. -/
def shrinkBlobDir (locked removeFails : String → Bool) (target : Int) :
    Int → List (Nat × List SFile) → Int × List (Nat × SFile)
  | size, [] => (size, [])
  | size, (t, group) :: rest =>
      if size ≤ target then (size, [])
      else
        let sd := shrinkGroup locked removeFails target size group
        let sd2 := shrinkBlobDir locked removeFails target sd.1 rest
        (sd2.1, sd.2.map (fun f => (t, f)) ++ sd2.2)

/-- The blob paths present in the snapshot that are still on disk after a
shrink pass deleted `deleted`: every scanned path that was not deleted. -/
def survivingPaths (groups : List (Nat × List SFile))
    (deleted : List (Nat × SFile)) : List String :=
  ((groups.map (fun kg => kg.2.map SFile.path)).flatten).filter
    (fun p => decide (p ∉ deleted.map (fun kf => kf.2.path)))

/-! ## `CacheBlobHelper.SizeLimited` (lines 421-554)

The size-limited cache budget controller.  `__init__` asserts
`options.blob_cache_size_check < 100`, derives the check threshold as
`blob_cache_max_size * blob_cache_size_check / 100.0` and the cleanup
target as `max(blob_cache_max_size - threshold, 0)`, zeroes the byte
counter, and ends by calling `self.__check()`, which spawns a checker
thread (there cannot be one running yet).  The float arithmetic is
modelled exactly over `ℚ`.  The spawned thread / `threading.Event` are
modelled by the flags `checker_running` and `reduced_event`, plus an
instrumentation counter `spawn_count` recording how many checker passes
have been spawned. -/

/-- The mutable state of a `CacheBlobHelper.SizeLimited` instance. -/
structure SizeLimitedState where
  blob_cache_max_size : ℚ
  bytes_loaded_check_threshold : ℚ
  blob_cache_target_cleanup_size : ℚ
  bytes_loaded_since_last_check : ℚ
  /-- `self._checker_thread is not None and not checker_thread.ready()` -/
  checker_running : Bool
  exceeded_counter : Nat
  reduced_event : Bool
  /-- Instrumentation: number of times `spawn(self._checker)` has run. -/
  spawn_count : Nat
deriving Repr, DecidableEq

/-- `SizeLimited.__check()` (lines 484-511): zero the counter, clear the
event, bump `_exceeded_counter`; if a checker thread is still running do
nothing more, otherwise reset `_exceeded_counter` and spawn a new checker
thread. -/
def sizeLimited_check (st : SizeLimitedState) : SizeLimitedState :=
  let st' := { st with bytes_loaded_since_last_check := 0,
                       reduced_event := false,
                       exceeded_counter := st.exceeded_counter + 1 }
  if st'.checker_running then st'
  else { st' with exceeded_counter := 0,
                  checker_running := true,
                  spawn_count := st'.spawn_count + 1 }

/-- `SizeLimited.__init__(options)` (lines 440-463): `assert
options.blob_cache_size_check < 100` (an `AssertionError` rejects the
configuration), derive threshold and target, initialise the counters, and
finish with `self.__check()`. -/
def sizeLimited_init (blob_cache_size blob_cache_size_check : Nat) :
    Except BlobError SizeLimitedState :=
  if blob_cache_size_check < 100 then
    let max_size : ℚ := blob_cache_size
    let threshold : ℚ := max_size * blob_cache_size_check / 100
    .ok (sizeLimited_check
      { blob_cache_max_size := max_size
        bytes_loaded_check_threshold := threshold
        blob_cache_target_cleanup_size := max (max_size - threshold) 0
        bytes_loaded_since_last_check := 0
        checker_running := false
        exceeded_counter := 0
        reduced_event := false
        spawn_count := 0 })
  else .error .assertionError

/-- `SizeLimited.loaded(byte_count)` (lines 472-482): add to the counter
under the lock; when the counter reaches the threshold, run `__check()`. -/
def sizeLimited_loaded (st : SizeLimitedState) (byte_count : ℚ) : SizeLimitedState :=
  let st' := { st with bytes_loaded_since_last_check :=
                  st.bytes_loaded_since_last_check + byte_count }
  if st'.bytes_loaded_check_threshold ≤ st'.bytes_loaded_since_last_check then
    sizeLimited_check st'
  else st'

/-! ## `_BlobCacheLayout.getBlobFilePath` (lines 744-756)

```
size = 997
def getBlobFilePath(self, oid, tid):
    base, rem = divmod(u64(oid), self.size)
    return os.path.join(
        str(rem),
        "%s.%s%s" % (base, hexlify(tid).decode('ascii'), ZODB.blob.BLOB_SUFFIX))
```

`oid` and `tid` are 8-byte big-endian strings; `u64` turns them into
integers below `2 ^ 64` and `hexlify(tid)` is the 16-character lowercase
hex rendering of the 8 bytes.  `ZODB.blob.BLOB_SUFFIX` is `".blob"` and
`os.path.join` inserts `"/"`.  We embed `str` (decimal rendering of a
natural number) and `hexlify` (fixed-width base-16 rendering) with
fuel-based structural recursion so that the kernel can evaluate them. -/

/-- The character of a decimal digit `d < 10`, i.e. `chr(48 + d)`. -/
def decDigitChar (d : Nat) : Char :=
  Char.ofNat (48 + d)

/-- Little-endian decimal digits of `n` (empty for 0); the first argument
is fuel, always called with fuel `≥ n`. -/
def decAux : Nat → Nat → List Nat
  | _, 0 => []
  | 0, _ + 1 => []
  | fuel + 1, n + 1 => (n + 1) % 10 :: decAux fuel ((n + 1) / 10)

/-- The digits of `str(n)`, most significant first (`[0]` for `n = 0`). -/
def decDigits (n : Nat) : List Nat :=
  if n = 0 then [0] else (decAux n n).reverse

/-- Python `str(n)` for a natural number. -/
def strNat (n : Nat) : String :=
  ⟨(decDigits n).map decDigitChar⟩

/-- The character of a hex digit `d < 16` as produced by `hexlify`
(lowercase): `0`-`9` then `a`-`f`. -/
def hexDigitChar (d : Nat) : Char :=
  if d < 10 then Char.ofNat (48 + d) else Char.ofNat (87 + d)

/-- The `k` low-order base-`b` digits of `n`, most significant first. -/
def beDigits (b : Nat) : Nat → Nat → List Nat
  | 0, _ => []
  | k + 1, n => beDigits b k (n / b) ++ [n % b]

/-- `binascii.hexlify` of the 8-byte big-endian encoding of `tid`:
16 lowercase hex characters. -/
def hexlify8 (tid : Nat) : String :=
  ⟨(beDigits 16 16 tid).map hexDigitChar⟩

/-- `_BlobCacheLayout.getBlobFilePath(oid, tid)`:
`str(oid % 997) ++ "/" ++ str(oid // 997) ++ "." ++ hexlify(tid) ++ ".blob"`. -/
def getBlobFilePath (oid tid : Nat) : String :=
  strNat (oid % 997) ++ "/" ++ (strNat (oid / 997) ++ "." ++ hexlify8 tid ++ ".blob")

/-! ## Helper lemmas about the staging dict -/

/-- Looking up the key just assigned returns the new value. -/
theorem txnGet_txnSet_self (m : TxnBlobs) (oid : Nat) (filename : String) :
    txnGet (txnSet m oid filename) oid = some filename := by
  induction m with
  | nil => simp [txnSet, txnGet]
  | cons kv rest ih =>
      obtain ⟨k, v⟩ := kv
      by_cases h : k = oid <;> simp [txnSet, txnGet, h, ih]

/-- Assignment leaves the other keys' bindings unchanged. -/
theorem txnGet_txnSet_other (m : TxnBlobs) (oid oid' : Nat) (filename : String)
    (h : oid' ≠ oid) : txnGet (txnSet m oid filename) oid' = txnGet m oid' := by
  have h' : ¬oid = oid' := fun hh => h hh.symm
  induction m with
  | nil => simp [txnSet, txnGet, h']
  | cons kv rest ih =>
      obtain ⟨k, v⟩ := kv
      by_cases hk : k = oid
      · subst hk
        simp [txnSet, txnGet, h']
      · simp [txnSet, txnGet, hk, ih]

/-- The dict produced by `_add_blob_to_transaction` is exactly the
assignment `self._txn_blobs[oid] = filename`, in every branch. -/
theorem add_blob_to_transaction_fst (m : TxnBlobs) (oid : Nat) (filename : String) :
    (add_blob_to_transaction m oid filename).1 = txnSet m oid filename := by
  unfold add_blob_to_transaction
  cases txnGet m oid with
  | none => rfl
  | some old => by_cases h : old ≠ filename <;> simp [h]

/-- **C7** (confirmed). Within a transaction, staged entries are mutually
exclusive per oid: after `_add_blob_to_transaction(oid, filename)` the
staging dict maps `oid` to the last-stored temp path, every other oid's
binding is unchanged, and the earlier temp file for `oid` was removed
exactly when it existed under a different path (last write wins). -/
theorem C7_staging_last_write_wins (m : TxnBlobs) (oid : Nat) (filename : String) :
    txnGet (add_blob_to_transaction m oid filename).1 oid = some filename ∧
    (∀ oid', oid' ≠ oid →
      txnGet (add_blob_to_transaction m oid filename).1 oid' = txnGet m oid') ∧
    (add_blob_to_transaction m oid filename).2 =
      (match txnGet m oid with
       | some old => if old ≠ filename then [old] else []
       | none => []) := by
  refine ⟨?_, ?_, ?_⟩
  · rw [add_blob_to_transaction_fst]
    exact txnGet_txnSet_self m oid filename
  · intro oid' h
    rw [add_blob_to_transaction_fst]
    exact txnGet_txnSet_other m oid oid' filename h
  · unfold add_blob_to_transaction
    cases txnGet m oid with
    | none => rfl
    | some old => by_cases h : old ≠ filename <;> simp [h]

/-- Witness for C7 at a concrete staging dict. -/
theorem C7_staging_last_write_wins_witness :
    txnGet (add_blob_to_transaction [(1, "a"), (2, "b")] 1 "c").1 1 = some "c" ∧
    txnGet (add_blob_to_transaction [(1, "a"), (2, "b")] 1 "c").1 2 = some "b" ∧
    (add_blob_to_transaction [(1, "a"), (2, "b")] 1 "c").2 = ["a"] := by
  have h := C7_staging_last_write_wins [(1, "a"), (2, "b")] 1 "c"
  refine ⟨h.1, ?_, ?_⟩
  · rw [h.2.1 2 (by decide)]
    rfl
  · rw [h.2.2]
    rfl

/-- **C2** (confirmed). For the cache variant, `load` on a local cache miss
takes the per-blob lock; under the lock it re-checks the filesystem and
returns without downloading when the file was materialized concurrently;
otherwise it invokes the download collaborator, and if the blob file still
does not exist afterwards it raises `POSKeyError` (NotFound). -/
theorem C2_cache_load_miss (existsAtDoubleCheck downloadCreates : Bool)
    (blob_filename : String) :
    (loadBlobInternal false existsAtDoubleCheck downloadCreates blob_filename).lockTaken
        = true ∧
    (existsAtDoubleCheck = true →
      (loadBlobInternal false existsAtDoubleCheck downloadCreates blob_filename).result
          = .ok blob_filename ∧
      (loadBlobInternal false existsAtDoubleCheck downloadCreates
          blob_filename).downloadInvoked = false) ∧
    (existsAtDoubleCheck = false →
      (loadBlobInternal false existsAtDoubleCheck downloadCreates
          blob_filename).downloadInvoked = true ∧
      (downloadCreates = true →
        (loadBlobInternal false existsAtDoubleCheck downloadCreates blob_filename).result
            = .ok blob_filename) ∧
      (downloadCreates = false →
        (loadBlobInternal false existsAtDoubleCheck downloadCreates blob_filename).result
            = .error .posKeyError)) := by
  cases existsAtDoubleCheck <;> cases downloadCreates <;>
    simp [loadBlobInternal, loadBlobLocked]

/-- Witness for C2: a miss where the double-check still misses and the
download writes nothing raises `POSKeyError`; a concurrent materialization
is returned without downloading. -/
theorem C2_cache_load_miss_witness :
    (loadBlobInternal false false false "0/1.x.blob").lockTaken = true ∧
    (loadBlobInternal false false false "0/1.x.blob").downloadInvoked = true ∧
    (loadBlobInternal false false false "0/1.x.blob").result = .error .posKeyError ∧
    (loadBlobInternal false true false "0/1.x.blob").result = .ok "0/1.x.blob" ∧
    (loadBlobInternal false true false "0/1.x.blob").downloadInvoked = false := by
  have h1 := C2_cache_load_miss false false "0/1.x.blob"
  have h2 := C2_cache_load_miss true false "0/1.x.blob"
  refine ⟨h1.1, (h1.2.2 rfl).1, (h1.2.2 rfl).2.2 rfl, (h2.2.1 rfl).1, (h2.2.1 rfl).2⟩

/-- **C1** (code bug). `CacheBlobHelper.finish(tid)` does *not* clear the
staging area unconditionally: when moving a staged temp file into its
final cache path raises, the exception propagates out of `finish` before
`clear_temp()` runs, the staging dict still holds the entry, and a
subsequent `begin()` raises `StorageTransactionError` instead of
succeeding.  (Only on the success path is the staging area cleared, as the
last conjunct shows.) -/
theorem C1_finish_leaves_staging_on_move_failure :
    (cacheFinish (fun _ _ => "t") (fun _ => 10) (fun _ _ => true)
        ⟨some [(0, "tmp")]⟩ (some 1)).2.2 = some BlobError.osError ∧
    (cacheFinish (fun _ _ => "t") (fun _ => 10) (fun _ _ => true)
        ⟨some [(0, "tmp")]⟩ (some 1)).1.txn_blobs = some [(0, "tmp")] ∧
    beginTxn (cacheFinish (fun _ _ => "t") (fun _ => 10) (fun _ _ => true)
        ⟨some [(0, "tmp")]⟩ (some 1)).1 = .error BlobError.storageTransactionError ∧
    (cacheFinish (fun _ _ => "t") (fun _ => 10) (fun _ _ => false)
        ⟨some [(0, "tmp")]⟩ (some 1)).1.txn_blobs = none :=
  ⟨rfl, rfl, rfl, rfl⟩

/-! ## C3: `abort()` -/

/-- When no removal fails, the abort loop removes exactly the staged files
that exist on disk, in dict order, and raises nothing. -/
theorem abortLoop_no_fail (fsExists removeFails : String → Bool)
    (blobs : TxnBlobs) (h : ∀ fn, fsExists fn = true → removeFails fn = false) :
    abortLoop fsExists removeFails blobs =
      ((blobs.filter (fun p => fsExists p.2)).map Prod.snd, none) := by
  induction blobs with
  | nil => rfl
  | cons p rest ih =>
      obtain ⟨o, fn⟩ := p
      by_cases hfs : fsExists fn = true
      · have hrf := h fn hfs
        simp [abortLoop, hfs, hrf, ih, List.filter_cons]
      · simp only [Bool.not_eq_true] at hfs
        simp [abortLoop, hfs, ih, List.filter_cons]

/-- **C3 counterexample**. `abort()` can raise: with one staged file that
exists on disk and whose removal raises `OSError`, the exception
propagates to the caller (the claim says abort never raises and absorbs
deletion failures). -/
theorem C3_abort_raises_on_failed_removal :
    (abortTxn (fun _ => true) (fun _ => true) ⟨some [(0, "f")]⟩).2.2 =
      some BlobError.osError := rfl

/-- **C3 amended** (corrected). For every state of the staging area,
`abort` leaves the staging area cleared (the `finally` clause), and when
no deletion fails it raises nothing and deletes exactly the staged temp
files that exist; but a deletion failure *propagates* to the caller
rather than being absorbed. -/
theorem C3_abort_clears_but_can_raise (fsExists removeFails : String → Bool)
    (st : HelperState) :
    (abortTxn fsExists removeFails st).1.txn_blobs = none ∧
    ((∀ fn, fsExists fn = true → removeFails fn = false) →
      (abortTxn fsExists removeFails st).2.2 = none ∧
      (abortTxn fsExists removeFails st).2.1 =
        ((st.txn_blobs.getD []).filter (fun p => fsExists p.2)).map Prod.snd) := by
  constructor
  · unfold abortTxn
    cases st.txn_blobs with
    | none => rfl
    | some blobs => cases blobs <;> rfl
  · intro h
    unfold abortTxn
    cases hst : st.txn_blobs with
    | none => simp
    | some blobs =>
        cases blobs with
        | nil => simp
        | cons b bs => simp [abortLoop_no_fail fsExists removeFails _ h]

/-- Witness for the amended C3 at a concrete staging area. -/
theorem C3_abort_clears_but_can_raise_witness :
    (abortTxn (fun _ => true) (fun _ => false)
        ⟨some [(1, "a"), (2, "b")]⟩).1.txn_blobs = none ∧
    (abortTxn (fun _ => true) (fun _ => false)
        ⟨some [(1, "a"), (2, "b")]⟩).2.2 = none ∧
    (abortTxn (fun _ => true) (fun _ => false)
        ⟨some [(1, "a"), (2, "b")]⟩).2.1 = ["a", "b"] := by
  have h := C3_abort_clears_but_can_raise (fun _ => true) (fun _ => false)
    ⟨some [(1, "a"), (2, "b")]⟩
  have h2 := h.2 (fun _ _ => rfl)
  refine ⟨h.1, h2.1, ?_⟩
  rw [h2.2]
  rfl

/-- **C10** (confirmed). In no-blob mode every blob data operation raises
`Unsupported` for every input, and every transaction-lifecycle operation
is a no-op that never raises (`NoBlobHelper` has `__slots__ = ()`, so
there is no state to change). -/
theorem C10_no_blob_mode (cursor oid serial tid : Nat) (blob : Option Nat)
    (data blobfilename : String) (copied : List (Nat × Nat)) (otid : Option Nat) :
    noBlob_loadBlob cursor oid serial = .error .unsupported ∧
    noBlob_openCommittedBlobFile cursor oid serial blob = .error .unsupported ∧
    noBlob_temporaryDirectory = .error .unsupported ∧
    noBlob_storeBlob cursor oid serial data blobfilename = .error .unsupported ∧
    noBlob_restoreBlob cursor oid serial blobfilename = .error .unsupported ∧
    noBlob_voteFinish otid = .ok () ∧
    noBlob_lifecycle = .ok () ∧
    noBlob_after_pack oid tid = .ok () ∧
    noBlob_copy_undone copied tid = .ok () :=
  ⟨rfl, rfl, rfl, rfl, rfl, rfl, rfl, rfl, rfl⟩

/-- **C6** (confirmed). For every size-limited configuration the check
threshold equals `max_bytes * checkPercent / 100`, the post-eviction
target equals `max_bytes - threshold` clamped at zero (hence never
negative), and a `checkPercent` of 100 or more is rejected at
construction time (the `assert` raises). -/
theorem C6_size_limited_config (blob_cache_size blob_cache_size_check : Nat) :
    (100 ≤ blob_cache_size_check →
      sizeLimited_init blob_cache_size blob_cache_size_check =
        .error .assertionError) ∧
    (blob_cache_size_check < 100 →
      ∃ st, sizeLimited_init blob_cache_size blob_cache_size_check = .ok st ∧
        st.bytes_loaded_check_threshold =
          (blob_cache_size : ℚ) * (blob_cache_size_check : ℚ) / 100 ∧
        st.blob_cache_target_cleanup_size =
          max ((blob_cache_size : ℚ) - st.bytes_loaded_check_threshold) 0 ∧
        0 ≤ st.blob_cache_target_cleanup_size) := by
  constructor
  · intro h
    have h' : ¬blob_cache_size_check < 100 := by omega
    simp [sizeLimited_init, h']
  · intro h
    simp only [sizeLimited_init, if_pos h]
    refine ⟨_, rfl, ?_, ?_, ?_⟩
    · simp [sizeLimited_check]
    · simp [sizeLimited_check]
    · simp only [sizeLimited_check]
      exact le_max_right _ 0

/-- Witness for C6: a 1000-byte cap with checkPercent 10 yields threshold
100 and target 900; checkPercent 100 is rejected. -/
theorem C6_size_limited_config_witness :
    sizeLimited_init 1000 100 = .error .assertionError ∧
    (∃ st, sizeLimited_init 1000 10 = .ok st ∧
      st.bytes_loaded_check_threshold = (1000 : ℚ) * (10 : ℚ) / 100 ∧
      st.blob_cache_target_cleanup_size =
        max ((1000 : ℚ) - st.bytes_loaded_check_threshold) 0 ∧
      0 ≤ st.blob_cache_target_cleanup_size) :=
  ⟨(C6_size_limited_config 1000 100).1 (by norm_num),
   (C6_size_limited_config 1000 10).2 (by norm_num)⟩

/-- **C9** (confirmed). Constructing a size-limited cache budget
controller immediately spawns an eviction check pass (`__init__` ends
with `self.__check()`, which finds no checker thread and spawns one),
with the loaded-bytes counter still zero — so an over-budget pre-existing
directory begins shrinking at storage-creation time. -/
theorem C9_checker_spawned_at_construction (blob_cache_size blob_cache_size_check : Nat)
    (h : blob_cache_size_check < 100) :
    ∃ st, sizeLimited_init blob_cache_size blob_cache_size_check = .ok st ∧
      st.spawn_count = 1 ∧ st.checker_running = true ∧
      st.bytes_loaded_since_last_check = 0 := by
  simp only [sizeLimited_init, if_pos h]
  exact ⟨_, rfl, by simp [sizeLimited_check], by simp [sizeLimited_check],
    by simp [sizeLimited_check]⟩

/-- Witness for C9 at a concrete configuration. -/
theorem C9_checker_spawned_at_construction_witness :
    ∃ st, sizeLimited_init 1000 10 = .ok st ∧
      st.spawn_count = 1 ∧ st.checker_running = true ∧
      st.bytes_loaded_since_last_check = 0 :=
  C9_checker_spawned_at_construction 1000 10 (by norm_num)

/-! ## Lemmas about the eviction pass -/

theorem sumSize_nil : sumSize [] = 0 := rfl

theorem sumSize_cons (f : SFile) (l : List SFile) :
    sumSize (f :: l) = f.fsize + sumSize l := by
  simp [sumSize]

theorem sumSize_append (l1 l2 : List SFile) :
    sumSize (l1 ++ l2) = sumSize l1 + sumSize l2 := by
  simp [sumSize]

/-- Inner loop accounting: the size after one atime group is the size
before it minus the total size of the files the group's loop deleted. -/
theorem shrinkGroup_size (locked removeFails : String → Bool) (target : Int)
    (size : Int) (g : List SFile) :
    (shrinkGroup locked removeFails target size g).1 =
      size - sumSize (shrinkGroup locked removeFails target size g).2 := by
  induction g generalizing size with
  | nil => simp [shrinkGroup, sumSize_nil]
  | cons f rest ih =>
      by_cases hl : locked f.path
      · simp only [shrinkGroup, if_pos hl]
        exact ih size
      · by_cases hr : removeFails f.path
        · by_cases hs : size ≤ target
          · simp [shrinkGroup, hl, hr, hs, sumSize_nil]
          · simp only [shrinkGroup, if_neg hl, if_pos hr, if_neg hs]
            exact ih size
        · by_cases hs : size - f.fsize ≤ target
          · simp [shrinkGroup, hl, hr, hs, sumSize_cons, sumSize_nil]
          · simp only [shrinkGroup, if_neg hl, if_neg hr, if_neg hs, sumSize_cons]
            have := ih (size - f.fsize)
            omega

/-- Inner loop: every deleted file comes from the group, its non-blocking
lock attempt succeeded, and its removal did not fail. -/
theorem shrinkGroup_deleted_mem (locked removeFails : String → Bool) (target : Int)
    (size : Int) (g : List SFile) :
    ∀ f ∈ (shrinkGroup locked removeFails target size g).2,
      f ∈ g ∧ locked f.path = false ∧ removeFails f.path = false := by
  induction g generalizing size with
  | nil => simp [shrinkGroup]
  | cons f rest ih =>
      by_cases hl : locked f.path
      · simp only [shrinkGroup, if_pos hl]
        intro x hx
        have := ih size x hx
        exact ⟨List.mem_cons_of_mem _ this.1, this.2⟩
      · by_cases hr : removeFails f.path
        · by_cases hs : size ≤ target
          · simp [shrinkGroup, hl, hr, hs]
          · simp only [shrinkGroup, if_neg hl, if_pos hr, if_neg hs]
            intro x hx
            have := ih size x hx
            exact ⟨List.mem_cons_of_mem _ this.1, this.2⟩
        · by_cases hs : size - f.fsize ≤ target
          · simp only [shrinkGroup, if_neg hl, if_neg hr, if_pos hs]
            intro x hx
            rcases List.mem_singleton.1 hx with rfl
            exact ⟨List.mem_cons_self _ _,
              Bool.not_eq_true _ ▸ by simpa using hl, by simpa using hr⟩
          · simp only [shrinkGroup, if_neg hl, if_neg hr, if_neg hs]
            intro x hx
            rcases List.mem_cons.1 hx with rfl | hx
            · exact ⟨List.mem_cons_self _ _, by simpa using hl, by simpa using hr⟩
            · have := ih (size - f.fsize) x hx
              exact ⟨List.mem_cons_of_mem _ this.1, this.2⟩

/-- Inner loop completion: if the loop ends still above the target, every
file of the group was either locked, failed to be removed, or deleted. -/
theorem shrinkGroup_complete (locked removeFails : String → Bool) (target : Int)
    (size : Int) (g : List SFile)
    (h : target < (shrinkGroup locked removeFails target size g).1) :
    ∀ f ∈ g, locked f.path = true ∨ removeFails f.path = true ∨
      f ∈ (shrinkGroup locked removeFails target size g).2 := by
  induction g generalizing size with
  | nil => simp
  | cons f rest ih =>
      by_cases hl : locked f.path
      · simp only [shrinkGroup, if_pos hl] at h ⊢
        intro x hx
        rcases List.mem_cons.1 hx with rfl | hx
        · exact Or.inl hl
        · exact ih size h x hx
      · by_cases hr : removeFails f.path
        · by_cases hs : size ≤ target
          · simp only [shrinkGroup, if_neg hl, if_pos hr, if_pos hs] at h
            omega
          · simp only [shrinkGroup, if_neg hl, if_pos hr, if_neg hs] at h ⊢
            intro x hx
            rcases List.mem_cons.1 hx with rfl | hx
            · exact Or.inr (Or.inl hr)
            · exact ih size h x hx
        · by_cases hs : size - f.fsize ≤ target
          · simp only [shrinkGroup, if_neg hl, if_neg hr, if_pos hs] at h
            omega
          · simp only [shrinkGroup, if_neg hl, if_neg hr, if_neg hs] at h ⊢
            intro x hx
            rcases List.mem_cons.1 hx with rfl | hx
            · exact Or.inr (Or.inr (List.mem_cons_self _ _))
            · rcases ih (size - f.fsize) h x hx with h1 | h2 | h3
              · exact Or.inl h1
              · exact Or.inr (Or.inl h2)
              · exact Or.inr (Or.inr (List.mem_cons_of_mem _ h3))

/-- Inner loop stops as soon as the target is reached: before each
deletion the running total still exceeded the target. -/
theorem shrinkGroup_over_target (locked removeFails : String → Bool) (target : Int)
    (size : Int) (g : List SFile) (hsize : target < size) :
    ∀ k, k < (shrinkGroup locked removeFails target size g).2.length →
      target < size - sumSize ((shrinkGroup locked removeFails target size g).2.take k) := by
  induction g generalizing size with
  | nil => simp [shrinkGroup]
  | cons f rest ih =>
      by_cases hl : locked f.path
      · simp only [shrinkGroup, if_pos hl]
        exact ih size hsize
      · by_cases hr : removeFails f.path
        · by_cases hs : size ≤ target
          · simp only [shrinkGroup, if_neg hl, if_pos hr, if_pos hs]
            simp
          · simp only [shrinkGroup, if_neg hl, if_pos hr, if_neg hs]
            exact ih size hsize
        · by_cases hs : size - f.fsize ≤ target
          · simp only [shrinkGroup, if_neg hl, if_neg hr, if_pos hs]
            intro k hk
            have hk0 : k = 0 := by simpa using hk
            subst hk0
            simpa [sumSize_nil] using hsize
          · simp only [shrinkGroup, if_neg hl, if_neg hr, if_neg hs]
            intro k hk
            match k with
            | 0 => simpa [sumSize_nil] using hsize
            | k + 1 =>
                simp only [List.take_succ_cons, sumSize_cons]
                have hk' : k < (shrinkGroup locked removeFails target
                    (size - f.fsize) rest).2.length := by
                  simpa using hk
                have := ih (size - f.fsize) (by omega) k hk'
                omega

/-- The `while` loop does not run at all when the size is already at or
below the target. -/
theorem shrinkBlobDir_stop (locked removeFails : String → Bool) (target : Int)
    (size : Int) (groups : List (Nat × List SFile)) (h : size ≤ target) :
    shrinkBlobDir locked removeFails target size groups = (size, []) := by
  cases groups with
  | nil => rfl
  | cons g rest => simp [shrinkBlobDir, h]

/-- Outer loop accounting: the final size is the initial size minus the
total size of all deleted files. -/
theorem shrinkBlobDir_size (locked removeFails : String → Bool) (target : Int)
    (size : Int) (groups : List (Nat × List SFile)) :
    (shrinkBlobDir locked removeFails target size groups).1 =
      size - sumSize ((shrinkBlobDir locked removeFails target size groups).2.map
        Prod.snd) := by
  induction groups generalizing size with
  | nil => simp [shrinkBlobDir, sumSize_nil]
  | cons g rest ih =>
      obtain ⟨t, grp⟩ := g
      by_cases hs : size ≤ target
      · simp [shrinkBlobDir, hs, sumSize_nil]
      · simp only [shrinkBlobDir, if_neg hs, List.map_append, List.map_map]
        rw [sumSize_append]
        have h1 := shrinkGroup_size locked removeFails target size grp
        have h2 := ih (shrinkGroup locked removeFails target size grp).1
        have h3 : sumSize ((shrinkGroup locked removeFails target size grp).2.map
            ((fun kf => kf.2) ∘ fun f => (t, f))) =
            sumSize (shrinkGroup locked removeFails target size grp).2 := by
          simp [Function.comp]
        rw [h3]
        omega

/-- Outer loop: every deleted entry is tagged with the atime of a group of
the snapshot it belongs to, its lock attempt succeeded, and its removal
did not fail. -/
theorem shrinkBlobDir_deleted_mem (locked removeFails : String → Bool) (target : Int)
    (size : Int) (groups : List (Nat × List SFile)) :
    ∀ kf ∈ (shrinkBlobDir locked removeFails target size groups).2,
      (∃ g, (kf.1, g) ∈ groups ∧ kf.2 ∈ g) ∧
      locked kf.2.path = false ∧ removeFails kf.2.path = false := by
  induction groups generalizing size with
  | nil => simp [shrinkBlobDir]
  | cons g rest ih =>
      obtain ⟨t, grp⟩ := g
      by_cases hs : size ≤ target
      · simp [shrinkBlobDir, hs]
      · simp only [shrinkBlobDir, if_neg hs]
        intro kf hkf
        rcases List.mem_append.1 hkf with hmem | hmem
        · rcases List.mem_map.1 hmem with ⟨f, hf, rfl⟩
          have := shrinkGroup_deleted_mem locked removeFails target size grp f hf
          exact ⟨⟨grp, List.mem_cons_self _ _, this.1⟩, this.2⟩
        · have := ih (shrinkGroup locked removeFails target size grp).1 kf hmem
          exact ⟨⟨this.1.choose, List.mem_cons_of_mem _ this.1.choose_spec.1,
            this.1.choose_spec.2⟩, this.2⟩

/-- Outer loop ordering: with the snapshot's groups sorted ascending by
atime (the BTree invariant), the deleted files are processed oldest
first: their atimes are non-decreasing. -/
theorem shrinkBlobDir_sorted (locked removeFails : String → Bool) (target : Int)
    (size : Int) (groups : List (Nat × List SFile))
    (hsorted : List.Sorted (· ≤ ·) (groups.map Prod.fst)) :
    List.Sorted (· ≤ ·)
      ((shrinkBlobDir locked removeFails target size groups).2.map Prod.fst) := by
  induction groups generalizing size with
  | nil => simp [shrinkBlobDir]
  | cons g rest ih =>
      obtain ⟨t, grp⟩ := g
      by_cases hs : size ≤ target
      · simp [shrinkBlobDir, hs]
      · simp only [shrinkBlobDir, if_neg hs, List.map_append, List.map_map]
        simp only [List.map_cons, List.sorted_cons] at hsorted
        rw [List.Sorted, List.pairwise_append]
        refine ⟨?_, ih _ hsorted.2, ?_⟩
        · rw [List.pairwise_map]
          exact List.pairwise_iff_forall_sublist.2
            (fun {_ _} _ => le_of_eq rfl)
        · intro a ha b hb
          rcases List.mem_map.1 ha with ⟨f, _, rfl⟩
          rcases List.mem_map.1 hb with ⟨kf, hkf, rfl⟩
          have hmem := shrinkBlobDir_deleted_mem locked removeFails target _ rest
            kf hkf
          rcases hmem.1 with ⟨gg, hgg, _⟩
          have : kf.1 ∈ rest.map Prod.fst := List.mem_map.2 ⟨(kf.1, gg), hgg, rfl⟩
          simpa using hsorted.1 _ this

/-- Outer loop completion: if the pass ends still above the target, then
every group was popped and every file of every group was locked, failed
removal, or was deleted — there were no deletable candidates left. -/
theorem shrinkBlobDir_complete (locked removeFails : String → Bool) (target : Int)
    (size : Int) (groups : List (Nat × List SFile))
    (h : target < (shrinkBlobDir locked removeFails target size groups).1) :
    ∀ kg ∈ groups, ∀ f ∈ kg.2,
      locked f.path = true ∨ removeFails f.path = true ∨
      (kg.1, f) ∈ (shrinkBlobDir locked removeFails target size groups).2 := by
  induction groups generalizing size with
  | nil => simp
  | cons g rest ih =>
      obtain ⟨t, grp⟩ := g
      by_cases hs : size ≤ target
      · simp only [shrinkBlobDir, if_pos hs] at h
        omega
      · simp only [shrinkBlobDir, if_neg hs] at h ⊢
        have hsd1 : target <
            (shrinkGroup locked removeFails target size grp).1 := by
          by_contra hc
          push_neg at hc
          rw [shrinkBlobDir_stop locked removeFails target _ rest hc] at h
          omega
        intro kg hkg f hf
        rcases List.mem_cons.1 hkg with rfl | hkg
        · rcases shrinkGroup_complete locked removeFails target size grp hsd1 f hf
            with h1 | h2 | h3
          · exact Or.inl h1
          · exact Or.inr (Or.inl h2)
          · exact Or.inr (Or.inr (List.mem_append_left _
              (List.mem_map.2 ⟨f, h3, rfl⟩)))
        · rcases ih (shrinkGroup locked removeFails target size grp).1 h kg hkg f hf
            with h1 | h2 | h3
          · exact Or.inl h1
          · exact Or.inr (Or.inl h2)
          · exact Or.inr (Or.inr (List.mem_append_right _ h3))

/-- Outer loop stops as soon as the target is reached: before every
deletion of the pass, the running total still exceeded the target. -/
theorem shrinkBlobDir_over_target (locked removeFails : String → Bool) (target : Int)
    (size : Int) (groups : List (Nat × List SFile)) :
    ∀ k, k < (shrinkBlobDir locked removeFails target size groups).2.length →
      target < size - sumSize
        (((shrinkBlobDir locked removeFails target size groups).2.take k).map
          Prod.snd) := by
  induction groups generalizing size with
  | nil => simp [shrinkBlobDir]
  | cons g rest ih =>
      obtain ⟨t, grp⟩ := g
      by_cases hs : size ≤ target
      · simp [shrinkBlobDir, hs]
      · simp only [shrinkBlobDir, if_neg hs]
        push_neg at hs
        set S := shrinkGroup locked removeFails target size grp with hS
        set D2 := shrinkBlobDir locked removeFails target S.1 rest with hD2
        intro k hk
        simp only [List.length_append, List.length_map] at hk
        rw [List.take_append_eq_append_take, List.map_append, sumSize_append,
          List.length_map]
        rcases lt_or_le k S.2.length with hcase | hcase
        · have h0 : k - S.2.length = 0 := by omega
          rw [h0, List.take_zero, List.map_nil, sumSize_nil]
          have hfst : (S.2.map (fun f => (t, f))).take k =
              (S.2.take k).map (fun f => (t, f)) := by
            rw [List.map_take]
          rw [hfst]
          have hsnd : ((S.2.take k).map (fun f => (t, f))).map Prod.snd =
              S.2.take k := by simp
          rw [hsnd]
          have hover := shrinkGroup_over_target locked removeFails target size grp hs k hcase
          rw [← hS] at hover
          omega
        · have htake : (S.2.map (fun f => (t, f))).take k =
              S.2.map (fun f => (t, f)) :=
            List.take_of_length_le (by simpa using hcase)
          rw [htake]
          have hsnd : (S.2.map (fun f => (t, f))).map Prod.snd = S.2 := by simp
          rw [hsnd]
          have hlen : k - S.2.length < D2.2.length := by omega
          have hih := ih S.1 (k - S.2.length) hlen
          rw [← hD2] at hih
          have hsz := shrinkGroup_size locked removeFails target size grp
          rw [← hS] at hsz
          omega

/-- **C4** (confirmed). An eviction pass processes blob files in ascending
order of last-access time (the deleted files' atimes are non-decreasing,
given the BTree's sorted-key invariant); a file is deleted only when its
non-blocking lock attempt succeeds, and each deleted file's size is
subtracted from the running total; if the pass ends above the target,
no deletable candidate remained (every file was locked, failed removal,
or was deleted); and nothing is deleted once the running total is at or
below the target. -/
theorem C4_eviction_pass (locked removeFails : String → Bool) (target size0 : Int)
    (groups : List (Nat × List SFile))
    (hsorted : List.Sorted (· ≤ ·) (groups.map Prod.fst)) :
    List.Sorted (· ≤ ·)
      ((shrinkBlobDir locked removeFails target size0 groups).2.map Prod.fst) ∧
    (∀ kf ∈ (shrinkBlobDir locked removeFails target size0 groups).2,
      locked kf.2.path = false) ∧
    (shrinkBlobDir locked removeFails target size0 groups).1 =
      size0 - sumSize
        ((shrinkBlobDir locked removeFails target size0 groups).2.map Prod.snd) ∧
    (target < (shrinkBlobDir locked removeFails target size0 groups).1 →
      ∀ kg ∈ groups, ∀ f ∈ kg.2,
        locked f.path = true ∨ removeFails f.path = true ∨
        (kg.1, f) ∈ (shrinkBlobDir locked removeFails target size0 groups).2) ∧
    (∀ k, k < (shrinkBlobDir locked removeFails target size0 groups).2.length →
      target < size0 - sumSize
        (((shrinkBlobDir locked removeFails target size0 groups).2.take k).map
          Prod.snd)) :=
  ⟨shrinkBlobDir_sorted locked removeFails target size0 groups hsorted,
   fun kf hkf =>
     (shrinkBlobDir_deleted_mem locked removeFails target size0 groups kf hkf).2.1,
   shrinkBlobDir_size locked removeFails target size0 groups,
   fun h => shrinkBlobDir_complete locked removeFails target size0 groups h,
   shrinkBlobDir_over_target locked removeFails target size0 groups⟩

/-- Witness for C4: two groups (atimes 1 and 2), a 25-byte directory with
a 10-byte target; the pass deletes the unlocked oldest file, skips the
locked one, deletes from the next group and stops at 8 bytes. -/
theorem C4_eviction_pass_witness :
    List.Sorted (· ≤ ·)
      ((shrinkBlobDir (fun p => p == "busy") (fun _ => false) 10 25
        [(1, [⟨"a", 8⟩, ⟨"busy", 5⟩]), (2, [⟨"b", 9⟩])]).2.map Prod.fst) ∧
    (∀ kf ∈ (shrinkBlobDir (fun p => p == "busy") (fun _ => false) 10 25
        [(1, [⟨"a", 8⟩, ⟨"busy", 5⟩]), (2, [⟨"b", 9⟩])]).2,
      (fun p => p == "busy") kf.2.path = false) ∧
    (shrinkBlobDir (fun p => p == "busy") (fun _ => false) 10 25
        [(1, [⟨"a", 8⟩, ⟨"busy", 5⟩]), (2, [⟨"b", 9⟩])]).1 =
      25 - sumSize ((shrinkBlobDir (fun p => p == "busy") (fun _ => false) 10 25
        [(1, [⟨"a", 8⟩, ⟨"busy", 5⟩]), (2, [⟨"b", 9⟩])]).2.map Prod.snd) ∧
    (10 < (shrinkBlobDir (fun p => p == "busy") (fun _ => false) 10 25
        [(1, [⟨"a", 8⟩, ⟨"busy", 5⟩]), (2, [⟨"b", 9⟩])]).1 →
      ∀ kg ∈ [((1 : Nat), [(⟨"a", 8⟩ : SFile), ⟨"busy", 5⟩]), (2, [⟨"b", 9⟩])],
        ∀ f ∈ kg.2,
        (fun p => p == "busy") f.path = true ∨ (fun _ => false) f.path = true ∨
        (kg.1, f) ∈ (shrinkBlobDir (fun p => p == "busy") (fun _ => false) 10 25
          [(1, [⟨"a", 8⟩, ⟨"busy", 5⟩]), (2, [⟨"b", 9⟩])]).2) ∧
    (∀ k, k < (shrinkBlobDir (fun p => p == "busy") (fun _ => false) 10 25
        [(1, [⟨"a", 8⟩, ⟨"busy", 5⟩]), (2, [⟨"b", 9⟩])]).2.length →
      10 < 25 - sumSize (((shrinkBlobDir (fun p => p == "busy") (fun _ => false) 10 25
        [(1, [⟨"a", 8⟩, ⟨"busy", 5⟩]), (2, [⟨"b", 9⟩])]).2.take k).map Prod.snd)) :=
  C4_eviction_pass (fun p => p == "busy") (fun _ => false) 10 25
    [(1, [⟨"a", 8⟩, ⟨"busy", 5⟩]), (2, [⟨"b", 9⟩])] (by decide)

/-- **C5** (confirmed). Eviction never deletes a file whose per-file lock
is held: a file of the snapshot for which the non-blocking lock attempt
fails is not in the deleted list and its path is still present after the
pass completes. -/
theorem C5_locked_file_survives (locked removeFails : String → Bool)
    (target size0 : Int) (groups : List (Nat × List SFile))
    (kg : Nat × List SFile) (f : SFile)
    (hg : kg ∈ groups) (hf : f ∈ kg.2) (hlocked : locked f.path = true) :
    (kg.1, f) ∉ (shrinkBlobDir locked removeFails target size0 groups).2 ∧
    f.path ∈ survivingPaths groups
      (shrinkBlobDir locked removeFails target size0 groups).2 := by
  constructor
  · intro hmem
    have hdel :=
      (shrinkBlobDir_deleted_mem locked removeFails target size0 groups _ hmem).2.1
    simp only at hdel
    rw [hlocked] at hdel
    cases hdel
  · rw [survivingPaths, List.mem_filter]
    refine ⟨List.mem_flatten.2 ⟨kg.2.map SFile.path,
      List.mem_map.2 ⟨kg, hg, rfl⟩, List.mem_map.2 ⟨f, hf, rfl⟩⟩, ?_⟩
    rw [decide_eq_true_iff]
    intro hmem
    rcases List.mem_map.1 hmem with ⟨kf, hkf, hpath⟩
    have hdel :=
      (shrinkBlobDir_deleted_mem locked removeFails target size0 groups kf hkf).2.1
    rw [hpath, hlocked] at hdel
    cases hdel

/-- Witness for C5: the locked file `busy` survives the concrete pass of
the C4 witness. -/
theorem C5_locked_file_survives_witness :
    ((1 : Nat), (⟨"busy", 5⟩ : SFile)) ∉
      (shrinkBlobDir (fun p => p == "busy") (fun _ => false) 10 25
        [(1, [⟨"a", 8⟩, ⟨"busy", 5⟩]), (2, [⟨"b", 9⟩])]).2 ∧
    (⟨"busy", 5⟩ : SFile).path ∈
      survivingPaths [(1, [⟨"a", 8⟩, ⟨"busy", 5⟩]), (2, [⟨"b", 9⟩])]
        (shrinkBlobDir (fun p => p == "busy") (fun _ => false) 10 25
          [(1, [⟨"a", 8⟩, ⟨"busy", 5⟩]), (2, [⟨"b", 9⟩])]).2 :=
  C5_locked_file_survives (fun p => p == "busy") (fun _ => false) 10 25
    [(1, [⟨"a", 8⟩, ⟨"busy", 5⟩]), (2, [⟨"b", 9⟩])]
    (1, [⟨"a", 8⟩, ⟨"busy", 5⟩]) ⟨"busy", 5⟩ (by decide) (by decide) (by decide)

/-! ## Lemmas about the cache layout path (C8) -/

/-- The little-endian digit list of `decAux` evaluates back to its input
when the fuel suffices. -/
theorem decAux_val (fuel : Nat) :
    ∀ n : Nat, n ≤ fuel → Nat.ofDigits 10 (decAux fuel n) = n := by
  induction fuel with
  | zero =>
      intro n hn
      have h0 : n = 0 := Nat.le_zero.1 hn
      subst h0
      simp [decAux, Nat.ofDigits_nil]
  | succ fuel ih =>
      intro n hn
      match n with
      | 0 => simp [decAux, Nat.ofDigits_nil]
      | m + 1 =>
          have hd : decAux (fuel + 1) (m + 1) =
              (m + 1) % 10 :: decAux fuel ((m + 1) / 10) := rfl
          rw [hd, Nat.ofDigits_cons]
          have hdiv : (m + 1) / 10 ≤ fuel := by
            have := Nat.div_lt_self (Nat.succ_pos m) (by norm_num : 1 < 10)
            omega
          rw [ih _ hdiv]
          omega

/-- Evaluating the reversed decimal digit string of `n` gives back `n`. -/
theorem ofDigits_decDigits (n : Nat) :
    Nat.ofDigits 10 (decDigits n).reverse = n := by
  by_cases h : n = 0
  · subst h
    norm_num [decDigits, Nat.ofDigits_cons, Nat.ofDigits_nil]
  · simp only [decDigits, if_neg h, List.reverse_reverse]
    exact decAux_val n n le_rfl

/-- The decimal rendering determines the number. -/
theorem decDigits_inj {n m : Nat} (h : decDigits n = decDigits m) : n = m := by
  have h' := congrArg (fun l => Nat.ofDigits 10 l.reverse) h
  simpa [ofDigits_decDigits] using h'

/-- All entries of `decAux` are decimal digits. -/
theorem decAux_lt_ten (fuel : Nat) :
    ∀ (n : Nat), ∀ d ∈ decAux fuel n, d < 10 := by
  induction fuel with
  | zero =>
      intro n d hd
      match n with
      | 0 => simp [decAux] at hd
      | m + 1 => simp [decAux] at hd
  | succ fuel ih =>
      intro n d hd
      match n with
      | 0 => simp [decAux] at hd
      | m + 1 =>
          have he : decAux (fuel + 1) (m + 1) =
              (m + 1) % 10 :: decAux fuel ((m + 1) / 10) := rfl
          rw [he] at hd
          rcases List.mem_cons.1 hd with rfl | hd
          · exact Nat.mod_lt _ (by norm_num)
          · exact ih _ d hd

/-- All entries of `decDigits` are decimal digits. -/
theorem decDigits_lt_ten (n : Nat) : ∀ d ∈ decDigits n, d < 10 := by
  intro d hd
  by_cases h : n = 0
  · subst h
    simp [decDigits] at hd
    omega
  · simp only [decDigits, if_neg h, List.mem_reverse] at hd
    exact decAux_lt_ten n n d hd

/-- Decimal digit characters are injective on digits. -/
theorem decDigitChar_inj_lt :
    ∀ d1, d1 < 10 → ∀ d2, d2 < 10 → decDigitChar d1 = decDigitChar d2 → d1 = d2 := by
  decide

/-- Decimal digit characters are neither the path separator nor a dot. -/
theorem decDigitChar_ne_sep :
    ∀ d, d < 10 → decDigitChar d ≠ '/' ∧ decDigitChar d ≠ '.' := by
  decide

/-- Hex digit characters are injective on hex digits. -/
theorem hexDigitChar_inj_lt :
    ∀ d1, d1 < 16 → ∀ d2, d2 < 16 → hexDigitChar d1 = hexDigitChar d2 → d1 = d2 := by
  decide

/-- Mapping an injective-on-a-bound character rendering over digit lists
below the bound is injective. -/
theorem map_inj_on_lt {f : Nat → Char} {bound : Nat}
    (hf : ∀ d1, d1 < bound → ∀ d2, d2 < bound → f d1 = f d2 → d1 = d2) :
    ∀ (l1 l2 : List Nat), (∀ d ∈ l1, d < bound) → (∀ d ∈ l2, d < bound) →
      l1.map f = l2.map f → l1 = l2 := by
  intro l1
  induction l1 with
  | nil =>
      intro l2 _ _ h
      cases l2 with
      | nil => rfl
      | cons b t => simp at h
  | cons a t ih =>
      intro l2 h1 h2 h
      cases l2 with
      | nil => simp at h
      | cons b t2 =>
          simp only [List.map_cons, List.cons.injEq] at h
          have ha := hf a (h1 a (List.mem_cons_self _ _)) b
            (h2 b (List.mem_cons_self _ _)) h.1
          have ht := ih t2 (fun d hd => h1 d (List.mem_cons_of_mem _ hd))
            (fun d hd => h2 d (List.mem_cons_of_mem _ hd)) h.2
          rw [ha, ht]

/-- `beDigits` produces exactly `k` digits. -/
theorem beDigits_length (b : Nat) : ∀ (k n : Nat), (beDigits b k n).length = k := by
  intro k
  induction k with
  | zero => intro n; rfl
  | succ k ih =>
      intro n
      have he : beDigits b (k + 1) n = beDigits b k (n / b) ++ [n % b] := rfl
      rw [he]
      simp [ih]

/-- All entries of `beDigits 16` are hex digits. -/
theorem beDigits16_lt : ∀ (k n : Nat), ∀ d ∈ beDigits 16 k n, d < 16 := by
  intro k
  induction k with
  | zero => intro n d hd; simp [beDigits] at hd
  | succ k ih =>
      intro n d hd
      have he : beDigits 16 (k + 1) n = beDigits 16 k (n / 16) ++ [n % 16] := rfl
      rw [he] at hd
      rcases List.mem_append.1 hd with hd | hd
      · exact ih _ d hd
      · rcases List.mem_singleton.1 hd with rfl
        exact Nat.mod_lt _ (by norm_num)

/-- The fixed-width base-16 rendering is injective below `16 ^ k`. -/
theorem beDigits16_inj :
    ∀ (k n m : Nat), n < 16 ^ k → m < 16 ^ k →
      beDigits 16 k n = beDigits 16 k m → n = m := by
  intro k
  induction k with
  | zero =>
      intro n m hn hm _
      simp only [pow_zero, Nat.lt_one_iff] at hn hm
      rw [hn, hm]
  | succ k ih =>
      intro n m hn hm h
      have he1 : beDigits 16 (k + 1) n = beDigits 16 k (n / 16) ++ [n % 16] := rfl
      have he2 : beDigits 16 (k + 1) m = beDigits 16 k (m / 16) ++ [m % 16] := rfl
      rw [he1, he2] at h
      obtain ⟨h1, h2⟩ := List.append_inj h
        (by rw [beDigits_length, beDigits_length])
      have hn' : n / 16 < 16 ^ k := by
        rw [Nat.div_lt_iff_lt_mul (by norm_num : (0 : Nat) < 16)]
        calc n < 16 ^ (k + 1) := hn
          _ = 16 ^ k * 16 := by ring
      have hm' : m / 16 < 16 ^ k := by
        rw [Nat.div_lt_iff_lt_mul (by norm_num : (0 : Nat) < 16)]
        calc m < 16 ^ (k + 1) := hm
          _ = 16 ^ k * 16 := by ring
      have hdiv := ih (n / 16) (m / 16) hn' hm' h1
      have hmod : n % 16 = m % 16 := by simpa using h2
      omega

/-- Splitting at a separator character that occurs in neither prefix is
unambiguous. -/
theorem append_sep_inj {c : Char} :
    ∀ {l1 l2 r1 r2 : List Char}, c ∉ l1 → c ∉ l2 →
      l1 ++ c :: r1 = l2 ++ c :: r2 → l1 = l2 ∧ r1 = r2 := by
  intro l1
  induction l1 with
  | nil =>
      intro l2 r1 r2 _ h2 h
      cases l2 with
      | nil => simpa using h
      | cons b t =>
          simp only [List.nil_append, List.cons_append, List.cons.injEq] at h
          obtain ⟨rfl, -⟩ := h
          exact absurd (List.mem_cons_self _ _) h2
  | cons a t ih =>
      intro l2 r1 r2 h1 h2 h
      cases l2 with
      | nil =>
          simp only [List.cons_append, List.nil_append, List.cons.injEq] at h
          obtain ⟨rfl, -⟩ := h
          exact absurd (List.mem_cons_self _ _) h1
      | cons b t2 =>
          simp only [List.cons_append, List.cons.injEq] at h
          have := ih (fun hm => h1 (List.mem_cons_of_mem _ hm))
            (fun hm => h2 (List.mem_cons_of_mem _ hm)) h.2
          exact ⟨by rw [h.1, this.1], this.2⟩

/-- The separator does not occur in a decimal rendering. -/
theorem slash_not_mem_dec (n : Nat) :
    '/' ∉ (decDigits n).map decDigitChar := by
  intro hmem
  rcases List.mem_map.1 hmem with ⟨d, hd, he⟩
  exact (decDigitChar_ne_sep d (decDigits_lt_ten n d hd)).1 he

/-- A dot does not occur in a decimal rendering. -/
theorem dot_not_mem_dec (n : Nat) :
    '.' ∉ (decDigits n).map decDigitChar := by
  intro hmem
  rcases List.mem_map.1 hmem with ⟨d, hd, he⟩
  exact (decDigitChar_ne_sep d (decDigits_lt_ten n d hd)).2 he

/-- The character content of `getBlobFilePath`, in separator-split form. -/
theorem getBlobFilePath_data (oid tid : Nat) :
    (getBlobFilePath oid tid).data =
      (decDigits (oid % 997)).map decDigitChar ++ '/' ::
        ((decDigits (oid / 997)).map decDigitChar ++ '.' ::
          ((beDigits 16 16 tid).map hexDigitChar ++ ['.', 'b', 'l', 'o', 'b'])) := by
  have h1 : ("/" : String).data = ['/'] := rfl
  have h2 : ("." : String).data = ['.'] := rfl
  have h3 : (".blob" : String).data = ['.', 'b', 'l', 'o', 'b'] := rfl
  simp [getBlobFilePath, strNat, hexlify8, String.data_append, h1, h2, h3,
    List.append_assoc]

/-- **C8** (confirmed). `_BlobCacheLayout.getBlobFilePath` is a pure
function of `(oid, tid)` and is injective over committed identities:
two 64-bit tids and any oids that map to the same relative path
`str(oid % 997) / str(oid // 997) . hexlify(tid) .blob` are equal. -/
theorem C8_layout_path_injective (oid1 tid1 oid2 tid2 : Nat)
    (htid1 : tid1 < 2 ^ 64) (htid2 : tid2 < 2 ^ 64)
    (h : getBlobFilePath oid1 tid1 = getBlobFilePath oid2 tid2) :
    oid1 = oid2 ∧ tid1 = tid2 := by
  have hdata := congrArg String.data h
  rw [getBlobFilePath_data, getBlobFilePath_data] at hdata
  obtain ⟨hA, hrest⟩ := append_sep_inj (slash_not_mem_dec _) (slash_not_mem_dec _) hdata
  obtain ⟨hB, hH⟩ := append_sep_inj (dot_not_mem_dec _) (dot_not_mem_dec _) hrest
  have hHeq : (beDigits 16 16 tid1).map hexDigitChar =
      (beDigits 16 16 tid2).map hexDigitChar :=
    List.append_cancel_right hH
  have h1616 : (16 : Nat) ^ 16 = 2 ^ 64 := by norm_num
  have htid : tid1 = tid2 :=
    beDigits16_inj 16 tid1 tid2 (h1616 ▸ htid1) (h1616 ▸ htid2)
      (map_inj_on_lt hexDigitChar_inj_lt _ _ (beDigits16_lt 16 tid1)
        (beDigits16_lt 16 tid2) hHeq)
  have hmod : oid1 % 997 = oid2 % 997 :=
    decDigits_inj (map_inj_on_lt decDigitChar_inj_lt _ _
      (decDigits_lt_ten _) (decDigits_lt_ten _) hA)
  have hdiv : oid1 / 997 = oid2 / 997 :=
    decDigits_inj (map_inj_on_lt decDigitChar_inj_lt _ _
      (decDigits_lt_ten _) (decDigits_lt_ten _) hB)
  exact ⟨by omega, htid⟩

/-- Witness for C8 at a concrete committed identity. -/
theorem C8_layout_path_injective_witness : (1000 : Nat) = 1000 ∧ (7 : Nat) = 7 :=
  C8_layout_path_injective 1000 7 1000 7 (by norm_num) (by norm_num) rfl

end RelStorage
